import Mathlib

set_option maxRecDepth 10000

/-!
Shallow embedding of the goxml package (speedata/goxml).

Sources embedded here:
  - src/xmldecoder.go: the node model (Element, CharData, Comment, ProcInst,
    XMLDocument), Element.Append, XMLDocument.Append, the serializer
    (toxml / ToXML, escape) and the tree builder Parse.
  - src/Readme.md: contains a second revision of the same file, in which the
    nodes additionally carry an integer ID handed out by a global counter
    (genIntegerSequence, starting at 0), Element.Append also accepts
    Attribute nodes, and Element.SetAttribute exists.  The embedding follows
    that richer revision; for everything the two revisions share the code is
    identical up to the ID fields.

Go specifics made explicit in the model:
  - Go maps (Element.Namespaces, the namespacePrinted set) are modelled as
    association lists; Go map iteration order is unspecified and is
    determinized here to insertion order.
  - Parse calls encoding/xml's Decoder in its default Strict mode.  The
    decoder enforces tag matching: an end tag that matches no open start tag
    is reported as a syntax error before the builder ever sees it, and EOF
    with open elements is reported as a syntax error instead of io.EOF.  The
    decoder also resolves name prefixes to namespace URIs (Decoder.translate)
    after recording xmlns bindings of the tag.  Those decoder behaviours are
    modelled from encoding/xml, because Parse's observable behaviour depends
    on them.
  - Pointer mutation of the open element (Go appends the new *Element to its
    parent at the start tag and keeps mutating it) is modelled by keeping the
    open element in a stack frame and appending the finished value at the end
    tag, which produces the same tree for every run that returns a tree.
-/

namespace Goxml

/-- escape (xmldecoder.go lines 14-16 and 340-342): the strings.Replacer
replaces each ampersand, less-than sign and double quote; all other
characters, in particular the greater-than sign and the apostrophe, are
copied unchanged. -/
def escapeChar (c : Char) : String :=
  if c = '&' then "&amp;"
  else if c = '<' then "&lt;"
  else if c = Char.ofNat 34 then "&quot;"
  else String.singleton c

/-- escape (xmldecoder.go line 340): entitiesReplacer.Replace applied to the
whole string. -/
def escape (s : String) : String :=
  String.join (s.data.map escapeChar)

/-- encoding/xml's xml.Attr: a qualified name (Space, Local) plus a value.
`space` is Name.Space, `lcl` is Name.Local. -/
structure XAttr where
  space : String
  lcl : String
  value : String
deriving DecidableEq

/-- Association list standing in for a Go map[string]string.  Setting an
existing key overwrites its value in place; a new key is appended. -/
def mapSet : List (String × String) → String → String → List (String × String)
  | [], k, v => [(k, v)]
  | (k1, v1) :: rest, k, v =>
    if k1 = k then (k, v) :: rest else (k1, v1) :: mapSet rest k v

/-- Go map lookup. -/
def mapGet : List (String × String) → String → Option String
  | [], _ => none
  | (k1, v1) :: rest, k => if k1 = k then some v1 else mapGet rest k

/-- The XMLNode variants of the package (Readme.md revision, which carries an
int ID on every node; src/xmldecoder.go is the same data model without the
ID fields).  The Go Element.Parent pointer is modelled as the ID of the
parent node (`parentId`); nodes other than Element have no parent field in
the source (their setParent is a dummy), so only `element` carries one. -/
inductive XMLNode : Type where
  | element (id : Nat) (name : String) (pfx : String) (parentId : Option Nat)
      (namespaces : List (String × String)) (attributes : List XAttr)
      (children : List XMLNode) : XMLNode
  | chardata (id : Nat) (contents : String) : XMLNode
  | comment (id : Nat) (contents : String) : XMLNode
  | procinst (id : Nat) (target : String) (inst : String) : XMLNode
  | attrnode (id : Nat) (name : String) (ns : String) (pfx : String)
      (value : String) : XMLNode

/-- XMLDocument: the tree root, holding the top level nodes. -/
structure XMLDocument where
  id : Nat
  children : List XMLNode

/-- The child-list part of Element.Append (both revisions): an incoming
CharData is merged into a trailing CharData child instead of appended.  In
the Readme.md revision the merged node is built as
CharData\x7bContents: old + new\x7d, which leaves its ID field at the Go zero
value 0. -/
def appendChild (cs : List XMLNode) (n : XMLNode) : List XMLNode :=
  match n with
  | .chardata _ t =>
    match cs.getLast? with
    | some (.chardata _ s) => cs.dropLast ++ [.chardata 0 (s ++ t)]
    | _ => cs ++ [n]
  | _ => cs ++ [n]

/-- The Attribute part of Element.Append (Readme.md lines 299-324): the first
stored attribute with the same (Space, Local) name gets its value replaced in
place; otherwise the attribute is appended at the end. -/
def appendAttr : List XAttr → String → String → String → List XAttr
  | [], ns, nm, v => [⟨ns, nm, v⟩]
  | a :: rest, ns, nm, v =>
    if a.lcl = nm ∧ a.space = ns then { a with value := v } :: rest
    else a :: appendAttr rest ns nm v

/-- Element.Append (Readme.md lines 298-345; src/xmldecoder.go lines 86-98 is
the same without the Attribute cases).  Note that it does not touch the
appended node: in particular it does not set the child's parent. -/
def eltAppend (e n : XMLNode) : XMLNode :=
  match e with
  | .element i nm px par nss ats cs =>
    match n with
    | .attrnode _ anm ans _ av => .element i nm px par nss (appendAttr ats ans anm av) cs
    | _ => .element i nm px par nss ats (appendChild cs n)
  | other => other

/-- setParent as dispatched through the XMLNode interface: Element stores the
new parent; every other variant's setParent is a dummy that does nothing. -/
def setParentTo (pid : Nat) (n : XMLNode) : XMLNode :=
  match n with
  | .element i nm px _ nss ats cs => .element i nm px (some pid) nss ats cs
  | other => other

/-- XMLDocument.Append (both revisions, lines 227-230 / 531-535): appends the
node and calls n.setParent(doc).  There is no CharData coalescing here. -/
def docAppend (d : XMLDocument) (n : XMLNode) : XMLDocument :=
  { d with children := d.children ++ [setParentTo d.id n] }

/-- The prefix scan inside SetAttribute: Go ranges over the Namespaces map
and takes the first key whose value is the wanted URI (map order is
unspecified; determinized here to list order), defaulting to "". -/
def firstPfxFor : List (String × String) → String → String
  | [], _ => ""
  | (k, v) :: rest, uri => if v = uri then k else firstPfxFor rest uri

/-- Element.SetAttribute (Readme.md lines 352-375): every stored attribute
whose full Name equals the new attribute's Name is dropped, then the new
attribute is appended at the end; if its Space is nonempty its Local name is
first rewritten to "pfx:local" using the first matching binding. -/
def setAttribute (e : XMLNode) (a : XAttr) : XMLNode :=
  match e with
  | .element i nm px par nss ats cs =>
    let kept := ats.filter (fun c => !(decide (c.space = a.space ∧ c.lcl = a.lcl)))
    let a2 := if a.space = "" then a
              else { a with lcl := firstPfxFor nss a.space ++ ":" ++ a.lcl }
    .element i nm px par nss (kept ++ [a2]) cs
  | other => other

/-- Children accessor (Element.Children / the dummy implementations). -/
def getChildren : XMLNode → List XMLNode
  | .element _ _ _ _ _ _ cs => cs
  | _ => []

/-- The Parent back-reference of a node, when the variant has one. -/
def parentIdOf : XMLNode → Option Nat
  | .element _ _ _ p _ _ _ => p
  | _ => none

/-- Attribute list accessor. -/
def attrsOf : XMLNode → List XAttr
  | .element _ _ _ _ _ ats _ => ats
  | _ => []

/-- The serialized tag name: "pfx:name" when the prefix is nonempty. -/
def eltTag (px nm : String) : String :=
  if px = "" then nm else px ++ ":" ++ nm

/-- One ordinary attribute as the serializer prints it (toxml line 148-149):
a space, the LOCAL name only, and the escaped value; the attribute's
namespace and any prefix are not used. -/
def attrRender (a : XAttr) : String :=
  " " ++ a.lcl ++ "=\"" ++ escape a.value ++ "\""

/-- The namespace loop of Element.toxml (lines 136-146): for each binding
whose URI is not yet in the printed set, emit xmlns or xmlns:pfx and mark
the URI printed.  Returns the emitted text and the grown set. -/
def printNs : List (String × String) → List String → String × List String
  | [], printed => ("", printed)
  | (p, ns) :: rest, printed =>
    if ns ∈ printed then printNs rest printed
    else
      let pr := if p = "" then "xmlns" else "xmlns:" ++ p
      let r := printNs rest (ns :: printed)
      (" " ++ pr ++ "=\"" ++ ns ++ "\"" ++ r.1, r.2)

mutual

/-- toxml of a single node (Element.toxml lines 127-161, CharData.toxml,
Comment.toxml, ProcInst.toxml, Attribute.toxml), threading the shared
namespacePrinted set exactly as the Go code threads the shared map. -/
def toxmlNode : XMLNode → List String → String × List String
  | .element _ nm px _ nss ats cs, printed =>
    let tag := eltTag px nm
    let r1 := printNs nss printed
    let head := "<" ++ tag ++ r1.1 ++ String.join (ats.map attrRender)
    if cs.isEmpty then (head ++ " />", r1.2)
    else
      let r2 := toxmlList cs r1.2
      (head ++ ">" ++ r2.1 ++ "</" ++ tag ++ ">", r2.2)
  | .chardata _ s, printed => (escape s, printed)
  | .comment _ s, printed => ("<!--" ++ s ++ "-->", printed)
  | .procinst _ t i, printed => ("<?" ++ t ++ " " ++ i ++ "?>", printed)
  | .attrnode _ nm _ _ v, printed => (nm ++ "=\"" ++ escape v ++ "\"", printed)

/-- Serialization of a child list, left to right, threading the printed
set. -/
def toxmlList : List XMLNode → List String → String × List String
  | [], printed => ("", printed)
  | c :: cs, printed =>
    let r1 := toxmlNode c printed
    let r2 := toxmlList cs r1.2
    (r1.1 ++ r2.1, r2.2)

end

/-- Element.ToXML: a fresh empty printed set for each top level call. -/
def eltToXML (e : XMLNode) : String :=
  (toxmlNode e []).1

/-- XMLDocument.ToXML: concatenates the children with one fresh shared
printed set. -/
def docToXML (d : XMLDocument) : String :=
  (toxmlList d.children []).1

/-! ## The token stream and the decoder front end

Parse (xmldecoder.go lines 265-338 / Readme.md lines 575-650) consumes
encoding/xml Decoder tokens.  A raw token is what the scanner produces:
names are still split into (prefix, local) and nothing is namespace
resolved.  Before delivering a token the Decoder (default Strict mode)
records the tag's xmlns bindings, translates names to
(namespace URI, local) form, pushes the start tag, and rejects an end tag
that does not match the open start tag as well as EOF while tags are open.
Those checks run before the builder's own switch. -/

/-- A scanner-level attribute: (prefix, local) name plus value, entities
already decoded. -/
structure RawAttr where
  pfx : String
  lcl : String
  value : String
deriving DecidableEq

/-- A scanner-level token. -/
inductive RawTok : Type where
  | rstart (pfx : String) (lcl : String) (ats : List RawAttr) : RawTok
  | rend (pfx : String) (lcl : String) : RawTok
  | rtext (s : String) : RawTok
  | rcomment (s : String) : RawTok
  | rpi (target : String) (inst : String) : RawTok
deriving DecidableEq

/-- The URI the decoder substitutes for the reserved prefix xml. -/
def xmlURL : String := "http://www.w3.org/XML/1998/namespace"

/-- Decoder.translate for an element name: the xml prefix maps to xmlURL,
otherwise the prefix (or "" for the default namespace) is looked up in the
decoder's current bindings; an unbound prefix is left as the Space. -/
def translateElemSpace (dns : List (String × String)) (px : String) : String :=
  let sp := if px = "xml" then xmlURL else px
  (mapGet dns sp).getD sp

/-- Decoder.translate for an attribute name: attributes with prefix xmlns and
unprefixed attributes are delivered untouched; otherwise as for elements. -/
def translateAttr (dns : List (String × String)) (ra : RawAttr) : XAttr :=
  if ra.pfx = "xmlns" then ⟨"xmlns", ra.lcl, ra.value⟩
  else if ra.pfx = "" then ⟨"", ra.lcl, ra.value⟩
  else
    let sp := if ra.pfx = "xml" then xmlURL else ra.pfx
    ⟨(mapGet dns sp).getD sp, ra.lcl, ra.value⟩

/-- The decoder's xmlns bookkeeping on a start tag: xmlns:p="u" binds p and
xmlns="u" binds the default prefix "", in attribute order. -/
def applyXmlnsBindings (dns : List (String × String)) (ats : List RawAttr) :
    List (String × String) :=
  ats.foldl
    (fun m a =>
      if a.pfx = "xmlns" then mapSet m a.lcl a.value
      else if a.pfx = "" ∧ a.lcl = "xmlns" then mapSet m "" a.value
      else m)
    dns

/-- One open element: the fields Parse has filled in so far, plus the
decoder-side data (the translated name the end tag must match, and the
bindings to restore when this element closes). -/
structure OpenElt where
  id : Nat
  name : String
  pfx : String
  parentId : Nat
  namespaces : List (String × String)
  attributes : List XAttr
  children : List XMLNode
  endSpace : String
  endLocal : String
  savedDns : List (String × String)

/-- The combined Parse/Decoder state.  In Go the decoder's stack of open tags
and Parse's eltstack always move together (the decoder only delivers an
EndElement that matches its own open start tag), so one stack carries both
roles here; the XMLDocument at the bottom of Go's eltstack is the `doc`
field.  `nextId` models the ids channel fed by genIntegerSequence, which
starts at 0 in a fresh process. -/
structure PState where
  nextId : Nat
  dns : List (String × String)
  doc : XMLDocument
  stack : List OpenElt

/-- The state at the top of Parse: the document takes the first id. -/
def initState : PState :=
  { nextId := 1, dns := [], doc := { id := 0, children := [] }, stack := [] }

/-- The id of cur, the innermost open node. -/
def curId (s : PState) : Nat :=
  match s.stack with
  | f :: _ => f.id
  | [] => s.doc.id

/-- cur.(Appender).Append(n): Element.Append on the innermost open element,
XMLDocument.Append when only the document is open. -/
def appendToCur (s : PState) (n : XMLNode) : PState :=
  match s.stack with
  | f :: rest => { s with stack := { f with children := appendChild f.children n } :: rest }
  | [] => { s with doc := docAppend s.doc n }

/-- The prefix resolution loop of Parse (lines 305-309): ranges over the
complete binding table and keeps the last prefix bound to the element's
namespace URI (map order unspecified; determinized to list order), starting
from the zero value "". -/
def resolvePfx (nss : List (String × String)) (uri : String) : String :=
  nss.foldl (fun acc kv => if kv.2 = uri then kv.1 else acc) ""

/-- The xml.StartElement case of Parse (lines 285-315), preceded by the
decoder work on the tag: record xmlns bindings, translate the element name
and the attributes.  The new element inherits cur's binding table when cur is
an Element, splits the delivered attributes into xmlns entries and ordinary
attributes, resolves its own prefix, records its parent (tmp.Parent = cur)
and becomes the innermost open element. -/
def processStart (s : PState) (px lcl : String) (rats : List RawAttr) : PState :=
  let dns2 := applyXmlnsBindings s.dns rats
  let espace := translateElemSpace dns2 px
  let tats := rats.map (translateAttr dns2)
  let inherited : List (String × String) :=
    match s.stack with
    | f :: _ => f.namespaces
    | [] => []
  let acc := tats.foldl
    (fun (acc : List (String × String) × List XAttr) att =>
      if att.lcl = "xmlns" then (mapSet acc.1 "" att.value, acc.2)
      else if att.space = "xmlns" then (mapSet acc.1 att.lcl att.value, acc.2)
      else (acc.1, acc.2 ++ [att]))
    (inherited, [])
  let frame : OpenElt :=
    { id := s.nextId, name := lcl, pfx := resolvePfx acc.1 espace,
      parentId := curId s, namespaces := acc.1, attributes := acc.2,
      children := [], endSpace := espace, endLocal := lcl, savedDns := s.dns }
  { s with nextId := s.nextId + 1, dns := dns2, stack := frame :: s.stack }

/-- The finished Element value an end tag produces from its frame. -/
def closeFrame (f : OpenElt) : XMLNode :=
  .element f.id f.name f.pfx (some f.parentId) f.namespaces f.attributes f.children

/-- The outcome of Parse: the document, or the error Go returns (the decoder
syntax errors are returned unchanged through `return nil, err`). -/
inductive ParseOutcome : Type where
  | ok (d : XMLDocument) : ParseOutcome
  | error (msg : String) : ParseOutcome

/-- The token loop of Parse.  End of stream: the decoder turns io.EOF into a
syntax error while elements are open, otherwise Parse breaks and returns the
document.  End tag: the decoder rejects it when no element is open or when
the translated name differs from the open start tag; otherwise the element
closes, the decoder bindings are restored, and the finished element is
appended to the node below it.  Text, comments and processing instructions
are appended to cur with a fresh id each. -/
def processToks (s : PState) : List RawTok → ParseOutcome
  | [] => if s.stack.isEmpty then .ok s.doc else .error "unexpected EOF"
  | .rstart px lcl ats :: ts => processToks (processStart s px lcl ats) ts
  | .rend px lcl :: ts =>
    match s.stack with
    | [] => .error "unexpected end element"
    | f :: rest =>
      if translateElemSpace s.dns px = f.endSpace ∧ lcl = f.endLocal then
        let s2 : PState := { s with dns := f.savedDns, stack := rest }
        processToks (appendToCur s2 (closeFrame f)) ts
      else .error "element closed by wrong name"
  | .rtext str :: ts =>
    processToks (appendToCur { s with nextId := s.nextId + 1 } (.chardata s.nextId str)) ts
  | .rcomment str :: ts =>
    processToks (appendToCur { s with nextId := s.nextId + 1 } (.comment s.nextId str)) ts
  | .rpi tg ins :: ts =>
    processToks (appendToCur { s with nextId := s.nextId + 1 } (.procinst s.nextId tg ins)) ts

/-- Parse on a decoded token stream, from a fresh id counter. -/
def parseTokens (ts : List RawTok) : ParseOutcome :=
  processToks initState ts

/-! ## Observation helpers over trees and outcomes -/

mutual

/-- The node identities met in a pre-order depth-first traversal. -/
def preIds : XMLNode → List Nat
  | .element i _ _ _ _ _ cs => i :: preIdsList cs
  | .chardata i _ => [i]
  | .comment i _ => [i]
  | .procinst i _ _ => [i]
  | .attrnode i _ _ _ _ => [i]

/-- Pre-order identities of a node list, left to right. -/
def preIdsList : List XMLNode → List Nat
  | [] => []
  | c :: cs => preIds c ++ preIdsList cs

end

/-- Pre-order identities of a whole document (the document node first). -/
def docPreIds (d : XMLDocument) : List Nat :=
  d.id :: preIdsList d.children

/-- Pre-order identities of the tree a parse returned, if any. -/
def docIdsOf : ParseOutcome → Option (List Nat)
  | .ok d => some (docPreIds d)
  | .error _ => none

/-- Is the node an Element? (the type switch of XMLDocument.Root). -/
def isElement : XMLNode → Bool
  | .element _ _ _ _ _ _ _ => true
  | _ => false

/-- XMLDocument.Root (lines 238-245): the first Element child, if any. -/
def docRoot (d : XMLDocument) : Option XMLNode :=
  d.children.find? isElement

/-- The root element's attribute list of a parse outcome. -/
def rootAttrsOf : ParseOutcome → Option (List XAttr)
  | .ok d => (docRoot d).map attrsOf
  | .error _ => none

/-- The serialized document of a parse outcome. -/
def outputOf : ParseOutcome → Option String
  | .ok d => some (docToXML d)
  | .error _ => none

/-- Is the node a CharData node? -/
def isCD : XMLNode → Bool
  | .chardata _ _ => true
  | _ => false

/-- No two adjacent CharData entries in a node list. -/
def noAdjPair : List XMLNode → Bool
  | [] => true
  | [_] => true
  | a :: b :: rest => !(isCD a && isCD b) && noAdjPair (b :: rest)

mutual

/-- Deep invariant: inside this node, no Element has two adjacent CharData
children. -/
def noAdjCD : XMLNode → Bool
  | .element _ _ _ _ _ _ cs => noAdjPair cs && noAdjCDList cs
  | _ => true

/-- The deep invariant for every node of a list. -/
def noAdjCDList : List XMLNode → Bool
  | [] => true
  | c :: cs => noAdjCD c && noAdjCDList cs

end

/-! ## Instrumented namespace-declaration trace of the serializer

`printNsDecls`, `declsNode` and `declsList` repeat the recursion of
`printNs`, `toxmlNode` and `toxmlList` but collect the (prefix, URI)
declarations the serializer emits instead of building the output string;
the lemma relating their printed sets to the serializer's is proved below.
They exist so that "each namespace is declared exactly once" can be stated
about the list of emitted declarations. -/

/-- The declarations the namespace loop of Element.toxml emits. -/
def printNsDecls : List (String × String) → List String →
    List (String × String) × List String
  | [], printed => ([], printed)
  | (p, ns) :: rest, printed =>
    if ns ∈ printed then printNsDecls rest printed
    else
      let r := printNsDecls rest (ns :: printed)
      ((p, ns) :: r.1, r.2)

mutual

/-- The declarations toxmlNode emits for a node. -/
def declsNode : XMLNode → List String → List (String × String) × List String
  | .element _ _ _ _ nss _ cs, printed =>
    let r1 := printNsDecls nss printed
    let r2 := declsList cs r1.2
    (r1.1 ++ r2.1, r2.2)
  | _, printed => ([], printed)

/-- The declarations toxmlList emits for a node list. -/
def declsList : List XMLNode → List String → List (String × String) × List String
  | [], printed => ([], printed)
  | c :: cs, printed =>
    let r1 := declsNode c printed
    let r2 := declsList cs r1.2
    (r1.1 ++ r2.1, r2.2)

end

mutual

/-- All namespace URIs bound somewhere in the subtree's binding tables. -/
def bindingURIs : XMLNode → List String
  | .element _ _ _ _ nss _ cs => nss.map Prod.snd ++ bindingURIsList cs
  | _ => []

/-- All namespace URIs bound in a node list. -/
def bindingURIsList : List XMLNode → List String
  | [] => []
  | c :: cs => bindingURIs c ++ bindingURIsList cs

end

/-! ## Scanner model

Parse's remaining collaborator is the token scanner of encoding/xml
(rawToken).  It is modelled here for the fragment of XML this development
feeds through whole-pipeline runs: start tags with double-quoted attributes,
end tags, self-closing tags (delivered as a start token followed by the
synthesized end token, as the Go decoder does), text with the five built-in
entities, and comments.  Anything else makes the scan fail, which Parse
surfaces as an error, matching the strict decoder's behaviour of returning a
syntax error for input it does not accept. -/

/-- XML whitespace. -/
def isSpaceChar (c : Char) : Bool :=
  c == ' ' || c == Char.ofNat 9 || c == Char.ofNat 10 || c == Char.ofNat 13

/-- Characters ending a name inside a tag. -/
def nameStop (c : Char) : Bool :=
  isSpaceChar c || c == '/' || c == '>' || c == '=' || c == '<'

/-- Split a raw name at its first colon into (prefix, local); no colon means
an empty prefix. -/
def splitName (nm : List Char) : String × String :=
  match nm.span (fun c => !(c == ':')) with
  | (before, []) => ("", String.mk before)
  | (before, _ :: after) => (String.mk before, String.mk after)

/-- The five built-in entities. -/
def entVal : String → Option String
  | "amp" => some "&"
  | "lt" => some "<"
  | "gt" => some ">"
  | "quot" => some (String.singleton (Char.ofNat 34))
  | "apos" => some (String.singleton (Char.ofNat 39))
  | _ => none

/-- Entity decoding of text and attribute values; an unknown entity is a
syntax error in the strict decoder, hence none. -/
def decodeEnts (fuel : Nat) (cs : List Char) : Option String :=
  match fuel, cs with
  | 0, _ => none
  | _, [] => some ""
  | f + 1, c :: rest =>
    if c == '&' then
      match rest.span (fun ch => !(ch == ';')) with
      | (_, []) => none
      | (ent, _ :: after) =>
        match entVal (String.mk ent), decodeEnts f after with
        | some v, some tail => some (v ++ tail)
        | _, _ => none
    else
      match decodeEnts f rest with
      | some tail => some (String.singleton c ++ tail)
      | none => none

/-- Drop leading whitespace. -/
def skipSpaces (cs : List Char) : List Char :=
  cs.dropWhile isSpaceChar

/-- The attribute loop inside a start tag.  Returns the attributes in order,
whether the tag was self-closing, and the input after the closing angle
bracket. -/
def lexAttrs (fuel : Nat) (cs : List Char) (acc : List RawAttr) :
    Option (List RawAttr × Bool × List Char) :=
  match fuel with
  | 0 => none
  | f + 1 =>
    match skipSpaces cs with
    | '/' :: '>' :: rest => some (acc.reverse, true, rest)
    | '>' :: rest => some (acc.reverse, false, rest)
    | [] => none
    | other =>
      match other.span (fun c => !(nameStop c)) with
      | ([], _) => none
      | (nm, rest1) =>
        match skipSpaces rest1 with
        | '=' :: rest2 =>
          match skipSpaces rest2 with
          | '"' :: rest3 =>
            match rest3.span (fun c => !(c == '"')) with
            | (_, []) => none
            | (vcs, _ :: rest4) =>
              match decodeEnts (vcs.length + 1) vcs with
              | some v =>
                let pl := splitName nm
                lexAttrs f rest4 (⟨pl.1, pl.2, v⟩ :: acc)
              | none => none
          | _ => none
        | _ => none

/-- Scan for the comment terminator, returning the comment body and the
rest. -/
def splitCommentEnd (fuel : Nat) (cs : List Char) (acc : List Char) :
    Option (List Char × List Char) :=
  match fuel, cs with
  | _, '-' :: '-' :: '>' :: rest => some (acc.reverse, rest)
  | 0, _ => none
  | f + 1, c :: rest => splitCommentEnd f rest (c :: acc)
  | _, [] => none

/-- The scanner loop: one raw token per step. -/
def lexLoop (fuel : Nat) (cs : List Char) (acc : List RawTok) :
    Option (List RawTok) :=
  match fuel with
  | 0 => none
  | f + 1 =>
    match cs with
    | [] => some acc.reverse
    | '<' :: '/' :: rest =>
      match rest.span (fun c => !(nameStop c)) with
      | ([], _) => none
      | (nm, rest1) =>
        match skipSpaces rest1 with
        | '>' :: rest2 =>
          let pl := splitName nm
          lexLoop f rest2 (.rend pl.1 pl.2 :: acc)
        | _ => none
    | '<' :: '!' :: '-' :: '-' :: rest =>
      match splitCommentEnd rest.length rest [] with
      | some (body, rest1) => lexLoop f rest1 (.rcomment (String.mk body) :: acc)
      | none => none
    | '<' :: rest =>
      match rest.span (fun c => !(nameStop c)) with
      | ([], _) => none
      | (nm, rest1) =>
        match lexAttrs (rest1.length + 1) rest1 [] with
        | some (ats, selfClosing, rest2) =>
          let pl := splitName nm
          if selfClosing then
            lexLoop f rest2 (.rend pl.1 pl.2 :: .rstart pl.1 pl.2 ats :: acc)
          else
            lexLoop f rest2 (.rstart pl.1 pl.2 ats :: acc)
        | none => none
    | _ =>
      match cs.span (fun c => !(c == '<')) with
      | (txt, rest1) =>
        match decodeEnts (txt.length + 1) txt with
        | some t => lexLoop f rest1 (.rtext t :: acc)
        | none => none

/-- The scanner over a whole input string. -/
def lex (s : String) : Option (List RawTok) :=
  lexLoop (s.length + 1) s.data []

/-- Parse from the raw text, as goxml.Parse(r) does: scanner errors are
returned as the build's error, otherwise the token loop runs. -/
def parseString (input : String) : ParseOutcome :=
  match lex input with
  | some ts => parseTokens ts
  | none => .error "syntax error"

/-! ## Concrete sample inputs used by the claim instances -/

/-- A well-formed document whose root carries a namespace-qualified
attribute. -/
def nsAttrInput : String := "<e xmlns:f=\"urn:x\" f:a=\"v\"></e>"

/-- An element with two plain attributes, for the SetAttribute claims. -/
def twoAttrElt : XMLNode :=
  .element 0 "e" "" none [] [⟨"", "a", "1"⟩, ⟨"", "b", "2"⟩] []

/-- An element declaring urn:x with a child element in the same namespace,
the namespace-deduplication example of the spec. -/
def sharedNsTree : XMLNode :=
  .element 0 "a" "a" none [("a", "urn:x")] []
    [.element 1 "b" "a" (some 0) [("a", "urn:x")] [] []]

/-- The token stream of an element whose text arrives as two consecutive
CharData tokens (as the decoder delivers for text split by a CDATA
section). -/
def splitTextToks : List RawTok :=
  [.rstart "" "a" [], .rtext "x", .rtext "y", .rend "" "a"]

/-- The builder invariant carried through the token loop: every open
element's accumulated child list has no two adjacent CharData entries and
every finished node inside it satisfies the deep invariant, and the document
children satisfy the deep invariant.  (The document's own list is not
pairwise constrained: XMLDocument.Append does not coalesce.) -/
def stInv (s : PState) : Prop :=
  (∀ f ∈ s.stack, noAdjPair f.children = true ∧ noAdjCDList f.children = true) ∧
  noAdjCDList s.doc.children = true

end Goxml

/-! # Theorems -/

namespace Goxml

/-! ## List plumbing for the coalescing invariant -/

theorem optionAll_true (o : Option XMLNode) : (o.all fun _ => true) = true := by
  cases o <;> rfl

theorem noAdjPair_concat (xs : List XMLNode) (a : XMLNode) :
    noAdjPair (xs ++ [a]) =
      (noAdjPair xs && xs.getLast?.all fun b => !(isCD b && isCD a)) := by
  induction xs with
  | nil => simp [noAdjPair]
  | cons x xs ih =>
    cases xs with
    | nil => simp [noAdjPair]
    | cons y ys =>
      simp only [List.cons_append, noAdjPair, List.append_eq] at ih ⊢
      rw [ih]
      simp [Bool.and_assoc]

theorem noAdjCDList_append (xs ys : List XMLNode) :
    noAdjCDList (xs ++ ys) = (noAdjCDList xs && noAdjCDList ys) := by
  induction xs with
  | nil => simp [noAdjCDList]
  | cons x xs ih => simp [noAdjCDList, ih, Bool.and_assoc]

theorem noAdjCDList_dropLast (xs : List XMLNode) (h : noAdjCDList xs = true) :
    noAdjCDList xs.dropLast = true := by
  cases hl : xs.getLast? with
  | none =>
    cases xs with
    | nil => simpa using h
    | cons x xs => simp at hl
  | some a =>
    obtain ⟨ys, rfl⟩ := List.getLast?_eq_some_iff.mp hl
    rw [List.dropLast_concat]
    rw [noAdjCDList_append] at h
    exact (Bool.and_eq_true_iff.mp h).1

theorem appendChild_noAdjPair (cs : List XMLNode) (n : XMLNode)
    (h : noAdjPair cs = true) : noAdjPair (appendChild cs n) = true := by
  match n with
  | .chardata i t =>
    unfold appendChild
    cases hl : cs.getLast? with
    | none =>
      simp only []
      rw [noAdjPair_concat, hl]
      simp [h]
    | some m =>
      obtain ⟨ys, rfl⟩ := List.getLast?_eq_some_iff.mp hl
      rw [noAdjPair_concat] at h
      obtain ⟨h1, h2⟩ := Bool.and_eq_true_iff.mp h
      match m with
      | .chardata j s =>
        simp only [List.dropLast_concat]
        rw [noAdjPair_concat]
        rw [h1]
        simpa [isCD] using h2
      | .element _ _ _ _ _ _ _ =>
        simp only []
        rw [noAdjPair_concat, List.getLast?_concat, noAdjPair_concat, h1, h2]
        simp [isCD]
      | .comment _ _ =>
        simp only []
        rw [noAdjPair_concat, List.getLast?_concat, noAdjPair_concat, h1, h2]
        simp [isCD]
      | .procinst _ _ _ =>
        simp only []
        rw [noAdjPair_concat, List.getLast?_concat, noAdjPair_concat, h1, h2]
        simp [isCD]
      | .attrnode _ _ _ _ _ =>
        simp only []
        rw [noAdjPair_concat, List.getLast?_concat, noAdjPair_concat, h1, h2]
        simp [isCD]
  | .element _ _ _ _ _ _ _ =>
    unfold appendChild
    rw [noAdjPair_concat]
    simp [isCD, h, optionAll_true]
  | .comment _ _ =>
    unfold appendChild
    rw [noAdjPair_concat]
    simp [isCD, h, optionAll_true]
  | .procinst _ _ _ =>
    unfold appendChild
    rw [noAdjPair_concat]
    simp [isCD, h, optionAll_true]
  | .attrnode _ _ _ _ _ =>
    unfold appendChild
    rw [noAdjPair_concat]
    simp [isCD, h, optionAll_true]

theorem appendChild_noAdjCDList (cs : List XMLNode) (n : XMLNode)
    (h1 : noAdjCDList cs = true) (h2 : noAdjCD n = true) :
    noAdjCDList (appendChild cs n) = true := by
  match n with
  | .chardata i t =>
    unfold appendChild
    cases hl : cs.getLast? with
    | none => simp [noAdjCDList_append, h1, noAdjCDList, noAdjCD]
    | some m =>
      match m with
      | .chardata j s =>
        simp only []
        rw [noAdjCDList_append]
        simp [noAdjCDList_dropLast cs h1, noAdjCDList, noAdjCD]
      | .element _ _ _ _ _ _ _ => simp [noAdjCDList_append, h1, noAdjCDList, noAdjCD]
      | .comment _ _ => simp [noAdjCDList_append, h1, noAdjCDList, noAdjCD]
      | .procinst _ _ _ => simp [noAdjCDList_append, h1, noAdjCDList, noAdjCD]
      | .attrnode _ _ _ _ _ => simp [noAdjCDList_append, h1, noAdjCDList, noAdjCD]
  | .element _ _ _ _ _ _ _ =>
    unfold appendChild
    simp [noAdjCDList_append, h1, noAdjCDList, h2]
  | .comment _ _ =>
    unfold appendChild
    simp [noAdjCDList_append, h1, noAdjCDList, h2]
  | .procinst _ _ _ =>
    unfold appendChild
    simp [noAdjCDList_append, h1, noAdjCDList, h2]
  | .attrnode _ _ _ _ _ =>
    unfold appendChild
    simp [noAdjCDList_append, h1, noAdjCDList, h2]

theorem setParentTo_noAdjCD (pid : Nat) (n : XMLNode) (h : noAdjCD n = true) :
    noAdjCD (setParentTo pid n) = true := by
  match n with
  | .element _ _ _ _ _ _ _ => exact h
  | .chardata _ _ => simp [setParentTo, noAdjCD]
  | .comment _ _ => simp [setParentTo, noAdjCD]
  | .procinst _ _ _ => simp [setParentTo, noAdjCD]
  | .attrnode _ _ _ _ _ => simp [setParentTo, noAdjCD]

theorem stInv_init : stInv initState := by
  constructor
  · intro f hf; simp [initState] at hf
  · simp [initState, noAdjCDList]

theorem stInv_appendToCur (s : PState) (n : XMLNode) (hs : stInv s)
    (hn : noAdjCD n = true) : stInv (appendToCur s n) := by
  obtain ⟨hstack, hdoc⟩ := hs
  unfold appendToCur
  cases hst : s.stack with
  | nil =>
    refine ⟨?_, ?_⟩
    · intro f hf; simp at hf
    · simp only [docAppend, noAdjCDList_append]
      simp [hdoc, noAdjCDList, setParentTo_noAdjCD _ _ hn]
  | cons f rest =>
    obtain ⟨hf1, hf2⟩ := hstack f (by simp [hst])
    refine ⟨?_, hdoc⟩
    intro g hg
    simp only [List.mem_cons] at hg
    cases hg with
    | inl h =>
      subst h
      exact ⟨appendChild_noAdjPair _ _ hf1, appendChild_noAdjCDList _ _ hf2 hn⟩
    | inr h => exact hstack g (by simp [hst, h])

theorem stInv_processStart (s : PState) (px lcl : String) (ats : List RawAttr)
    (hs : stInv s) : stInv (processStart s px lcl ats) := by
  obtain ⟨hstack, hdoc⟩ := hs
  refine ⟨?_, hdoc⟩
  intro f hf
  simp only [processStart, List.mem_cons] at hf
  cases hf with
  | inl h => subst h; exact ⟨rfl, rfl⟩
  | inr h => exact hstack f h

theorem processToks_ok_inv (ts : List RawTok) :
    ∀ (s : PState) (d : XMLDocument), stInv s → processToks s ts = .ok d →
      noAdjCDList d.children = true := by
  induction ts with
  | nil =>
    intro s d hs h
    rw [show processToks s [] =
          (if s.stack.isEmpty then ParseOutcome.ok s.doc
           else ParseOutcome.error "unexpected EOF") from rfl] at h
    split at h
    · cases h; exact hs.2
    · cases h
  | cons t ts ih =>
    intro s d hs h
    match t with
    | .rstart px lcl ats =>
      rw [show processToks s (.rstart px lcl ats :: ts) =
            processToks (processStart s px lcl ats) ts from rfl] at h
      exact ih _ d (stInv_processStart s px lcl ats hs) h
    | .rend px lcl =>
      rw [show processToks s (.rend px lcl :: ts) =
            (match s.stack with
             | [] => ParseOutcome.error "unexpected end element"
             | f :: rest =>
               if translateElemSpace s.dns px = f.endSpace ∧ lcl = f.endLocal then
                 processToks
                   (appendToCur { s with dns := f.savedDns, stack := rest }
                     (closeFrame f)) ts
               else ParseOutcome.error "element closed by wrong name") from rfl] at h
      cases hst : s.stack with
      | nil => simp only [hst] at h; cases h
      | cons f rest =>
        simp only [hst] at h
        by_cases hcond : translateElemSpace s.dns px = f.endSpace ∧ lcl = f.endLocal
        · rw [if_pos hcond] at h
          have hf := hs.1 f (by rw [hst]; exact List.mem_cons_self _ _)
          have hclose : noAdjCD (closeFrame f) = true := by
            simp [closeFrame, noAdjCD, hf.1, hf.2]
          refine ih (appendToCur { s with dns := f.savedDns, stack := rest }
              (closeFrame f)) d (stInv_appendToCur _ _ ⟨?_, hs.2⟩ hclose) h
          intro g hg
          exact hs.1 g (by rw [hst]; exact List.mem_cons_of_mem _ hg)
        · rw [if_neg hcond] at h; cases h
    | .rtext str =>
      rw [show processToks s (.rtext str :: ts) =
            processToks
              (appendToCur { s with nextId := s.nextId + 1 }
                (.chardata s.nextId str)) ts from rfl] at h
      exact ih (appendToCur { s with nextId := s.nextId + 1 } (.chardata s.nextId str)) d
        (stInv_appendToCur _ _ ⟨hs.1, hs.2⟩ (by simp [noAdjCD])) h
    | .rcomment str =>
      rw [show processToks s (.rcomment str :: ts) =
            processToks
              (appendToCur { s with nextId := s.nextId + 1 }
                (.comment s.nextId str)) ts from rfl] at h
      exact ih (appendToCur { s with nextId := s.nextId + 1 } (.comment s.nextId str)) d
        (stInv_appendToCur _ _ ⟨hs.1, hs.2⟩ (by simp [noAdjCD])) h
    | .rpi tg ins =>
      rw [show processToks s (.rpi tg ins :: ts) =
            processToks
              (appendToCur { s with nextId := s.nextId + 1 }
                (.procinst s.nextId tg ins)) ts from rfl] at h
      exact ih (appendToCur { s with nextId := s.nextId + 1 } (.procinst s.nextId tg ins)) d
        (stInv_appendToCur _ _ ⟨hs.1, hs.2⟩ (by simp [noAdjCD])) h

/-! ## Claim C9 -/

/-- C9 counterexample: a tree built by Parse can hold two adjacent CharData
siblings among the Document's top-level children, because XMLDocument.Append
does not coalesce.  Two consecutive CharData tokens at the top level (as the
decoder delivers for text split by a CDATA section before the root element)
are stored as two separate CharData children. -/
theorem doc_toplevel_adjacent_chardata :
    parseTokens [.rtext "ab", .rtext "cd"] =
      .ok ⟨0, [.chardata 1 "ab", .chardata 2 "cd"]⟩ ∧
    noAdjPair [.chardata 1 "ab", .chardata 2 "cd"] = false :=
  ⟨rfl, rfl⟩

/-- C9 (amended): inside every node of a tree built by Parse, no Element has
two adjacent CharData children (Element.Append coalesces adjacent CharData);
only the Document's top-level child list, which XMLDocument.Append fills
without coalescing, can hold adjacent CharData. -/
theorem parse_elements_never_have_adjacent_chardata (ts : List RawTok)
    (d : XMLDocument) (h : parseTokens ts = .ok d) :
    noAdjCDList d.children = true :=
  processToks_ok_inv ts initState d stInv_init h

/-- C9 witness: the two fragments "ab" and "cd" appended to an element come
out as the single CharData child "abcd", and the amended theorem applies to
the parse that produced that tree. -/
theorem parse_elements_never_have_adjacent_chardata_witness :
    noAdjCDList (XMLDocument.mk 0
      [.element 1 "a" "" (some 0) [] [] [.chardata 0 "abcd"]]).children = true :=
  parse_elements_never_have_adjacent_chardata
    [.rstart "" "a" [], .rtext "ab", .rtext "cd", .rend "" "a"]
    (XMLDocument.mk 0 [.element 1 "a" "" (some 0) [] [] [.chardata 0 "abcd"]]) rfl

/-! ## Claim C2 -/

/-- C2: an end-tag event arriving while only the Document is open makes the
build fail with the returned (recoverable) error of the strict decoder,
"unexpected end element"; no tree is produced and nothing panics — the
builder's unguarded stack pop is never reached because the decoder rejects
the token first. -/
theorem end_tag_with_only_document_open_errors (s : PState) (ts : List RawTok)
    (px lcl : String) (h : s.stack = []) :
    processToks s (.rend px lcl :: ts) = .error "unexpected end element" := by
  rw [show processToks s (.rend px lcl :: ts) =
        (match s.stack with
         | [] => ParseOutcome.error "unexpected end element"
         | f :: rest =>
           if translateElemSpace s.dns px = f.endSpace ∧ lcl = f.endLocal then
             processToks (appendToCur { s with dns := f.savedDns, stack := rest }
               (closeFrame f)) ts
           else ParseOutcome.error "element closed by wrong name") from rfl, h]

/-- C2 witness: a lone end tag makes Parse fail with the recoverable
error. -/
theorem end_tag_with_only_document_open_errors_witness :
    processToks initState [.rend "" "a"] = .error "unexpected end element" :=
  end_tag_with_only_document_open_errors initState [] "" "a" rfl

/-! ## Claim C3 -/

/-- C3: at end of stream the build returns the completed Document exactly
when no element is still open; with unclosed elements it fails with the
"unexpected EOF" error and no tree is returned. -/
theorem eof_returns_doc_iff_stack_empty (s : PState) :
    (s.stack = [] → processToks s [] = .ok s.doc) ∧
    (s.stack ≠ [] → processToks s [] = .error "unexpected EOF") := by
  have heq : processToks s [] =
      (if s.stack.isEmpty then ParseOutcome.ok s.doc
       else ParseOutcome.error "unexpected EOF") := rfl
  constructor
  · intro h
    rw [heq, h]
    rfl
  · intro h
    rw [heq]
    cases hs : s.stack with
    | nil => exact absurd hs h
    | cons a l => rfl

/-- C3 witness: the empty stream yields the empty document, while a stream
ending after one unclosed start tag fails with the EOF error. -/
theorem eof_returns_doc_iff_stack_empty_witness :
    processToks initState [] = .ok initState.doc ∧
    processToks (processStart initState "" "a" []) [] = .error "unexpected EOF" :=
  ⟨(eof_returns_doc_iff_stack_empty initState).1 rfl,
   (eof_returns_doc_iff_stack_empty (processStart initState "" "a" [])).2
     (List.cons_ne_nil _ _)⟩

/-! ## Claim C4 -/

/-- C4 (code bug evidence): when two CharData tokens arrive consecutively for
the same element, Element.Append merges them into a CharData built without
copying the ID, so the merged node carries the zero-value identity 0; the
pre-order identities of the resulting tree are [0, 1, 0], which are neither
strictly increasing nor unique, against the claimed identity invariant. -/
theorem coalesced_chardata_gets_id_zero :
    docIdsOf (parseTokens splitTextToks) = some [0, 1, 0] ∧
    ¬ List.Chain' (· < ·) [0, 1, 0] :=
  ⟨rfl, by simp [List.chain'_cons]⟩

/-! ## Claim C5 -/

/-- C5 counterexample: appending an element to an element by Element.Append
leaves the child's parent back-reference unset (it stays none instead of
becoming the parent's identity 0): Append does not set the parent. -/
theorem element_append_does_not_set_parent :
    (getChildren (eltAppend (.element 0 "p" "" none [] [] [])
        (.element 1 "c" "" none [] [] []))).map parentIdOf = [none] ∧
    (none : Option Nat) ≠ some 0 :=
  ⟨rfl, by decide⟩

/-- C5 (amended): the parent back-reference of an Element is written by Parse
itself at node creation (tmp.Parent = cur) and by XMLDocument.Append through
setParent; Element.Append appends the child unchanged and does not set its
parent, and non-Element nodes never carry a parent. -/
theorem parent_backreference_wiring :
    (∀ (s : PState) (px lcl : String) (ats : List RawAttr),
        ((processStart s px lcl ats).stack.head?.map OpenElt.parentId) =
          some (curId s)) ∧
    (∀ (d : XMLDocument) (i : Nat) (nm px : String) (par : Option Nat)
        (nss : List (String × String)) (ats : List XAttr) (cs : List XMLNode),
        (docAppend d (.element i nm px par nss ats cs)).children.getLast? =
          some (.element i nm px (some d.id) nss ats cs)) ∧
    (∀ (i0 : Nat) (nm0 px0 : String) (par0 : Option Nat)
        (nss0 : List (String × String)) (ats0 : List XAttr) (cs0 : List XMLNode)
        (i : Nat) (nm px : String) (par : Option Nat)
        (nss : List (String × String)) (ats : List XAttr) (cs : List XMLNode),
        getChildren (eltAppend (.element i0 nm0 px0 par0 nss0 ats0 cs0)
            (.element i nm px par nss ats cs)) =
          cs0 ++ [.element i nm px par nss ats cs]) := by
  refine ⟨fun s px lcl ats => rfl, fun d i nm px par nss ats cs => ?_, ?_⟩
  · simp [docAppend, setParentTo, List.getLast?_concat]
  · intro i0 nm0 px0 par0 nss0 ats0 cs0 i nm px par nss ats cs
    rfl

/-! ## Claim C6 -/

/-- C6 counterexample: SetAttribute on an element with attributes a="1",
b="2" and a new value a="3" yields the attribute order b="2", a="3": the
replaced attribute does not keep its position, it moves to the end. -/
theorem setattribute_does_not_keep_position :
    attrsOf (setAttribute twoAttrElt ⟨"", "a", "3"⟩) =
      [⟨"", "b", "2"⟩, ⟨"", "a", "3"⟩] ∧
    attrsOf (setAttribute twoAttrElt ⟨"", "a", "3"⟩) ≠
      [⟨"", "a", "3"⟩, ⟨"", "b", "2"⟩] :=
  ⟨rfl, by decide⟩

/-- C6 (amended): for an attribute without a namespace, SetAttribute drops
every stored attribute of the same (namespace, local name), appends the new
attribute at the end (so it is the last attribute and the only one with that
name), and keeps the remaining attributes in their relative order. -/
theorem setattribute_replaces_at_end (i : Nat) (nm px : String)
    (par : Option Nat) (nss : List (String × String)) (ats : List XAttr)
    (cs : List XMLNode) (a : XAttr) (h : a.space = "") :
    (attrsOf (setAttribute (.element i nm px par nss ats cs) a)).getLast? =
      some a ∧
    (attrsOf (setAttribute (.element i nm px par nss ats cs) a)).filter
        (fun c => decide (c.space = a.space ∧ c.lcl = a.lcl)) = [a] ∧
    (attrsOf (setAttribute (.element i nm px par nss ats cs) a)).filter
        (fun c => !(decide (c.space = a.space ∧ c.lcl = a.lcl))) =
      ats.filter (fun c => !(decide (c.space = a.space ∧ c.lcl = a.lcl))) := by
  have ha : attrsOf (setAttribute (.element i nm px par nss ats cs) a) =
      ats.filter (fun c => !(decide (c.space = a.space ∧ c.lcl = a.lcl))) ++ [a] := by
    simp [setAttribute, attrsOf, h]
  rw [ha]
  refine ⟨List.getLast?_concat _, ?_, ?_⟩
  · rw [List.filter_append]
    rw [show (List.filter (fun c => decide (c.space = a.space ∧ c.lcl = a.lcl))
          (List.filter (fun c => !(decide (c.space = a.space ∧ c.lcl = a.lcl))) ats)) =
        ([] : List XAttr) from ?_]
    · simp
    · rw [List.filter_filter]
      simp
  · rw [List.filter_append]
    rw [List.filter_filter]
    simp

/-- C6 witness: the amended statement evaluated on the two-attribute
element. -/
theorem setattribute_replaces_at_end_witness :
    (attrsOf (setAttribute (.element 0 "e" "" none []
        [⟨"", "a", "1"⟩, ⟨"", "b", "2"⟩] []) ⟨"", "a", "3"⟩)).getLast? =
      some ⟨"", "a", "3"⟩ ∧
    (attrsOf (setAttribute (.element 0 "e" "" none []
        [⟨"", "a", "1"⟩, ⟨"", "b", "2"⟩] []) ⟨"", "a", "3"⟩)).filter
        (fun c => decide (c.space = XAttr.space ⟨"", "a", "3"⟩ ∧
          c.lcl = XAttr.lcl ⟨"", "a", "3"⟩)) = [⟨"", "a", "3"⟩] ∧
    (attrsOf (setAttribute (.element 0 "e" "" none []
        [⟨"", "a", "1"⟩, ⟨"", "b", "2"⟩] []) ⟨"", "a", "3"⟩)).filter
        (fun c => !(decide (c.space = XAttr.space ⟨"", "a", "3"⟩ ∧
          c.lcl = XAttr.lcl ⟨"", "a", "3"⟩))) =
      [⟨"", "a", "1"⟩, ⟨"", "b", "2"⟩].filter
        (fun c => !(decide (c.space = XAttr.space ⟨"", "a", "3"⟩ ∧
          c.lcl = XAttr.lcl ⟨"", "a", "3"⟩))) :=
  setattribute_replaces_at_end 0 "e" "" none []
    [⟨"", "a", "1"⟩, ⟨"", "b", "2"⟩] [] ⟨"", "a", "3"⟩ rfl

/-! ## Claim C7: lemmas about the namespace-printed set -/

theorem printNs_set_eq (l : List (String × String)) (p : List String) :
    (printNs l p).2 = (printNsDecls l p).2 := by
  induction l generalizing p with
  | nil => rfl
  | cons kv rest ih =>
    obtain ⟨k, ns⟩ := kv
    by_cases hm : ns ∈ p
    · simp [printNs, printNsDecls, hm, ih]
    · simp [printNs, printNsDecls, hm, ih]

theorem printNsDecls_set (l : List (String × String)) (p : List String) :
    (printNsDecls l p).2 = ((printNsDecls l p).1.map Prod.snd).reverse ++ p := by
  induction l generalizing p with
  | nil => simp [printNsDecls]
  | cons kv rest ih =>
    obtain ⟨k, ns⟩ := kv
    by_cases hm : ns ∈ p
    · simp [printNsDecls, hm, ih]
    · simp only [printNsDecls, hm, if_neg, not_false_iff]
      rw [ih]
      simp

theorem printNsDecls_nodup_disjoint (l : List (String × String)) (p : List String) :
    ((printNsDecls l p).1.map Prod.snd).Nodup ∧
    ∀ u ∈ (printNsDecls l p).1.map Prod.snd, u ∉ p := by
  induction l generalizing p with
  | nil => simp [printNsDecls]
  | cons kv rest ih =>
    obtain ⟨k, ns⟩ := kv
    by_cases hm : ns ∈ p
    · simpa [printNsDecls, hm] using ih p
    · have h2 := ih (ns :: p)
      simp only [printNsDecls, hm, if_neg, not_false_iff, List.map_cons]
      constructor
      · exact List.nodup_cons.mpr
          ⟨fun hin => (h2.2 ns hin) (List.mem_cons_self _ _), h2.1⟩
      · intro u hu
        rcases List.mem_cons.mp hu with rfl | hu2
        · exact hm
        · exact fun hup => (h2.2 u hu2) (List.mem_cons_of_mem _ hup)

theorem printNsDecls_set_mono (l : List (String × String)) (p : List String)
    (u : String) (hu : u ∈ p) : u ∈ (printNsDecls l p).2 := by
  rw [printNsDecls_set]
  exact List.mem_append_right _ hu

theorem printNsDecls_covers (l : List (String × String)) (p : List String)
    (u : String) (hu : u ∈ l.map Prod.snd) : u ∈ (printNsDecls l p).2 := by
  induction l generalizing p with
  | nil => simp at hu
  | cons kv rest ih =>
    obtain ⟨k, ns⟩ := kv
    rw [List.map_cons] at hu
    rcases List.mem_cons.mp hu with rfl | hu2
    · by_cases hm : u ∈ p
      · simpa [printNsDecls, hm] using printNsDecls_set_mono rest p u hm
      · simpa [printNsDecls, hm] using
          printNsDecls_set_mono rest (u :: p) u (List.mem_cons_self _ _)
    · by_cases hm : ns ∈ p
      · simpa [printNsDecls, hm] using ih p hu2
      · simpa [printNsDecls, hm] using ih (ns :: p) hu2

mutual

theorem declsNode_set : ∀ (n : XMLNode) (p : List String),
    (declsNode n p).2 = ((declsNode n p).1.map Prod.snd).reverse ++ p
  | .element i nm px par nss ats cs, p => by
    simp only [declsNode]
    rw [declsList_set cs (printNsDecls nss p).2, printNsDecls_set nss p]
    simp
  | .chardata i s, p => by simp [declsNode]
  | .comment i s, p => by simp [declsNode]
  | .procinst i t ins, p => by simp [declsNode]
  | .attrnode i nm ns px v, p => by simp [declsNode]

theorem declsList_set : ∀ (l : List XMLNode) (p : List String),
    (declsList l p).2 = ((declsList l p).1.map Prod.snd).reverse ++ p
  | [], p => by simp [declsList]
  | c :: cs, p => by
    simp only [declsList]
    rw [declsList_set cs (declsNode c p).2, declsNode_set c p]
    simp

end

theorem declsNode_set_mono (n : XMLNode) (p : List String) (u : String)
    (hu : u ∈ p) : u ∈ (declsNode n p).2 := by
  rw [declsNode_set]
  exact List.mem_append_right _ hu

theorem declsList_set_mono (l : List XMLNode) (p : List String) (u : String)
    (hu : u ∈ p) : u ∈ (declsList l p).2 := by
  rw [declsList_set]
  exact List.mem_append_right _ hu

mutual

theorem declsNode_nodup : ∀ (n : XMLNode) (p : List String),
    ((declsNode n p).1.map Prod.snd).Nodup ∧
    ∀ u ∈ (declsNode n p).1.map Prod.snd, u ∉ p
  | .element i nm px par nss ats cs, p => by
    have h1 := printNsDecls_nodup_disjoint nss p
    have h2 := declsList_nodup cs (printNsDecls nss p).2
    have hset := printNsDecls_set nss p
    simp only [declsNode, List.map_append]
    rw [List.nodup_append]
    have hd2 : ∀ u ∈ (declsList cs (printNsDecls nss p).2).1.map Prod.snd,
        u ∉ ((printNsDecls nss p).1.map Prod.snd) ∧ u ∉ p := by
      intro u hu
      have := h2.2 u hu
      rw [hset] at this
      constructor
      · exact fun hin => this (List.mem_append_left _ (List.mem_reverse.mpr hin))
      · exact fun hin => this (List.mem_append_right _ hin)
    refine ⟨⟨h1.1, h2.1, ?_⟩, ?_⟩
    · intro u hu1 hu2
      exact (hd2 u hu2).1 hu1
    · intro u hu
      rcases List.mem_append.mp hu with h | h
      · exact h1.2 u h
      · exact (hd2 u h).2

  | .chardata i s, p => by simp [declsNode]
  | .comment i s, p => by simp [declsNode]
  | .procinst i t ins, p => by simp [declsNode]
  | .attrnode i nm ns px v, p => by simp [declsNode]

theorem declsList_nodup : ∀ (l : List XMLNode) (p : List String),
    ((declsList l p).1.map Prod.snd).Nodup ∧
    ∀ u ∈ (declsList l p).1.map Prod.snd, u ∉ p
  | [], p => by simp [declsList]
  | c :: cs, p => by
    have h1 := declsNode_nodup c p
    have h2 := declsList_nodup cs (declsNode c p).2
    have hset := declsNode_set c p
    simp only [declsList, List.map_append]
    rw [List.nodup_append]
    have hd2 : ∀ u ∈ (declsList cs (declsNode c p).2).1.map Prod.snd,
        u ∉ ((declsNode c p).1.map Prod.snd) ∧ u ∉ p := by
      intro u hu
      have := h2.2 u hu
      rw [hset] at this
      constructor
      · exact fun hin => this (List.mem_append_left _ (List.mem_reverse.mpr hin))
      · exact fun hin => this (List.mem_append_right _ hin)
    refine ⟨⟨h1.1, h2.1, ?_⟩, ?_⟩
    · intro u hu1 hu2
      exact (hd2 u hu2).1 hu1
    · intro u hu
      rcases List.mem_append.mp hu with h | h
      · exact h1.2 u h
      · exact (hd2 u h).2

end

mutual

theorem toxmlNode_set_eq : ∀ (n : XMLNode) (p : List String),
    (toxmlNode n p).2 = (declsNode n p).2
  | .element i nm px par nss ats cs, p => by
    simp only [toxmlNode, declsNode]
    by_cases hcs : cs.isEmpty
    · have hnil : cs = [] := List.isEmpty_iff.mp hcs
      subst hnil
      simp [declsList, printNs_set_eq]
    · simp only [hcs, if_neg, Bool.false_eq_true, not_false_iff]
      rw [printNs_set_eq nss p]
      exact toxmlList_set_eq cs (printNsDecls nss p).2
  | .chardata i s, p => by simp [toxmlNode, declsNode]
  | .comment i s, p => by simp [toxmlNode, declsNode]
  | .procinst i t ins, p => by simp [toxmlNode, declsNode]
  | .attrnode i nm ns px v, p => by simp [toxmlNode, declsNode]

theorem toxmlList_set_eq : ∀ (l : List XMLNode) (p : List String),
    (toxmlList l p).2 = (declsList l p).2
  | [], p => by simp [toxmlList, declsList]
  | c :: cs, p => by
    simp only [toxmlList, declsList]
    rw [toxmlNode_set_eq c p]
    exact toxmlList_set_eq cs (declsNode c p).2

end

mutual

theorem declsNode_covers : ∀ (n : XMLNode) (p : List String) (u : String),
    u ∈ bindingURIs n → u ∈ (declsNode n p).2
  | .element i nm px par nss ats cs, p, u, hu => by
    simp only [bindingURIs] at hu
    simp only [declsNode]
    rcases List.mem_append.mp hu with h | h
    · exact declsList_set_mono cs _ u (printNsDecls_covers nss p u h)
    · exact declsList_covers cs _ u h
  | .chardata i s, p, u, hu => by simp [bindingURIs] at hu
  | .comment i s, p, u, hu => by simp [bindingURIs] at hu
  | .procinst i t ins, p, u, hu => by simp [bindingURIs] at hu
  | .attrnode i nm ns px v, p, u, hu => by simp [bindingURIs] at hu

theorem declsList_covers : ∀ (l : List XMLNode) (p : List String) (u : String),
    u ∈ bindingURIsList l → u ∈ (declsList l p).2
  | [], p, u, hu => by simp [bindingURIsList] at hu
  | c :: cs, p, u, hu => by
    simp only [bindingURIsList] at hu
    simp only [declsList]
    rcases List.mem_append.mp hu with h | h
    · exact declsList_set_mono cs _ u (declsNode_covers c p u h)
    · exact declsList_covers cs _ u h

end

/-- C7: within one top-level serialization the emitted namespace declarations
have pairwise distinct URIs (each URI at most once, at its first point of
use, never re-declared by a descendant), a URI already in the incoming
printed set is never emitted again, the declaration trace evolves the
printed set exactly as the real serializer does, and every URI bound
anywhere in the subtree ends up emitted or was already in the incoming set —
so a fresh call (ToXML starts from the empty set) declares each bound URI
exactly once. -/
theorem namespaces_declared_once (n : XMLNode) (p : List String) (u : String)
    (hu : u ∈ p) :
    ((declsNode n p).1.map Prod.snd).Nodup ∧
    u ∉ (declsNode n p).1.map Prod.snd ∧
    (toxmlNode n p).2 = (declsNode n p).2 ∧
    ∀ w ∈ bindingURIs n, w ∈ (declsNode n p).1.map Prod.snd ∨ w ∈ p := by
  refine ⟨(declsNode_nodup n p).1, fun hin => (declsNode_nodup n p).2 u hin hu,
    toxmlNode_set_eq n p, ?_⟩
  intro w hw
  have hcv := declsNode_covers n p w hw
  rw [declsNode_set] at hcv
  rcases List.mem_append.mp hcv with h | h
  · exact Or.inl (List.mem_reverse.mp h)
  · exact Or.inr h

/-- C7 witness: the ancestor/descendant pair sharing urn:x from the spec's
example, serialized with "urn:y" already printed: the emitted URIs are
pairwise distinct, urn:y is not re-declared, the sets agree, and urn:x is
among the emitted declarations. -/
theorem namespaces_declared_once_witness :
    ((declsNode sharedNsTree ["urn:y"]).1.map Prod.snd).Nodup ∧
    "urn:y" ∉ (declsNode sharedNsTree ["urn:y"]).1.map Prod.snd ∧
    (toxmlNode sharedNsTree ["urn:y"]).2 = (declsNode sharedNsTree ["urn:y"]).2 ∧
    ("urn:x" ∈ (declsNode sharedNsTree ["urn:y"]).1.map Prod.snd ∨
      "urn:x" ∈ ["urn:y"]) := by
  obtain ⟨h1, h2, h3, h4⟩ :=
    namespaces_declared_once sharedNsTree ["urn:y"] "urn:y" (by decide)
  exact ⟨h1, h2, h3, h4 "urn:x" (by decide)⟩

/-! ## Claim C8 -/

/-- C8: serializing the CharData value with content a, less-than, b,
ampersand, c, double quote, d escapes exactly the three characters
ampersand, less-than and double quote, and the greater-than sign and the
apostrophe pass through escape unchanged. -/
theorem chardata_escaping :
    toxmlNode (.chardata 7 "a<b&c\"d") [] = ("a&lt;b&amp;c&quot;d", []) ∧
    escape ("e>f" ++ String.singleton (Char.ofNat 39) ++ "g") =
      "e>f" ++ String.singleton (Char.ofNat 39) ++ "g" ∧
    escapeChar '>' = ">" ∧
    escapeChar (Char.ofNat 39) = String.singleton (Char.ofNat 39) :=
  ⟨by decide, by decide, by decide, by decide⟩

/-! ## Claim C10 -/

/-- C10: the serializer renders ordinary attributes from their local name
and escaped value only — replacing every attribute's namespace URI by an
arbitrary other URI leaves the serialized element unchanged — and a
namespace-qualified attribute on an element with no declarations prints as
just local="value". -/
theorem attrs_serialized_by_local_name_only :
    (∀ (i : Nat) (nm px : String) (par : Option Nat)
        (nss : List (String × String)) (ats : List XAttr) (cs : List XMLNode)
        (printed : List String) (g : XAttr → String),
        toxmlNode (.element i nm px par nss
            (ats.map fun a => { a with space := g a }) cs) printed =
          toxmlNode (.element i nm px par nss ats cs) printed) ∧
    eltToXML (.element 0 "e" "" none [] [⟨"urn:x", "a", "v"⟩] []) =
      "<e a=\"v\" />" := by
  constructor
  · intro i nm px par nss ats cs printed g
    have hmap : (ats.map fun a => { a with space := g a }).map attrRender =
        ats.map attrRender := by
      rw [List.map_map]
      rfl
    simp only [toxmlNode]
    rw [hmap]
  · rfl

/-! ## Claim C1 -/

/-- C1 (code bug evidence): parsing a well-formed input whose root has the
namespace-qualified attribute f:a (with f bound to urn:x) yields a tree
whose root attribute is (urn:x, a, v); serializing that tree drops the
attribute's prefix and namespace, printing only a="v", so reparsing the
serializer's own output yields the attribute ("", a, v): the round trip
does not preserve attribute namespace URIs. -/
theorem roundtrip_loses_attribute_namespace :
    rootAttrsOf (parseString nsAttrInput) = some [⟨"urn:x", "a", "v"⟩] ∧
    outputOf (parseString nsAttrInput) = some "<e xmlns:f=\"urn:x\" a=\"v\" />" ∧
    (match parseString nsAttrInput with
     | .ok d => rootAttrsOf (parseString (docToXML d))
     | .error _ => none) = some [⟨"", "a", "v"⟩] :=
  ⟨by decide, by decide, by decide⟩

end Goxml
